import Mathlib

/-!
Shallow embedding of `src/obj_loader.rs` (Wavefront OBJ loader).

Conventions of the embedding:
* Rust `f64`/`f32` values are modelled as exact rationals `ℚ`: the source
  parses attribute values, stores them, and narrows them at emission time,
  but never branches on them, so the numeric claims checked here only need
  the values to be carried through unchanged (all concrete inputs used in
  the theorems are exactly representable in binary floating point).
* A Rust panic (an `unwrap()` on `Err`/`None`, or an out-of-bounds `Vec`
  index) is modelled as `Option.none`: the source never constructs a typed
  error value, so the success path is the only inhabited one.
* The external line source (`BufReader::lines`) is modelled as a
  `List (List Char)`, one entry per text line, without the newline.
* `HashMap` is modelled by an interface (`MapModel`) exposing exactly the
  operations the source uses (`get`, `insert`) together with their
  specification; the association list `mapFind`/cons is the reference
  instance.  The indexing code is written once against the interface, and
  the concrete `check_index`/`index_data` are its instantiation at the
  reference instance.
-/

set_option autoImplicit false

namespace ObjImport

/-- Two-component vector of the linear-algebra crate, components modelled as `ℚ`. -/
structure Vec2 where
  x : ℚ
  y : ℚ
deriving DecidableEq, Repr

/-- Three-component vector of the linear-algebra crate, components modelled as `ℚ`. -/
structure Vec3 where
  x : ℚ
  y : ℚ
  z : ℚ
deriving DecidableEq, Repr

/-- Embedding of `struct FaceIndex` of the source: one per-face-vertex attribute index
triple, fields are Rust `i32`, modelled as `Int`. -/
structure FaceIndex where
  pos : Int
  tex : Int
  norm : Int
deriving DecidableEq, Repr

/-- Embedding of `struct ObjData` of the source: the parser's raw output. -/
structure ObjData where
  vert_positions : List Vec3
  tex_coords : List Vec2
  normals : List Vec3
  faces : List (List FaceIndex)
deriving DecidableEq, Repr

/-- Embedding of `struct ObjObject` of the source: one deduplicated output vertex record.
`index` is a Rust `usize` (a `Vec` length), modelled as `Nat`. -/
structure ObjObject where
  index : Nat
  pos : Vec3
  tex_coord : Vec2
  normal : Vec3
deriving DecidableEq, Repr

/-- Constructor `ObjObject::new`: fresh record with zero placeholders for `tex_coord`/`normal`. -/
def ObjObject.new (index : Nat) (pos : Vec3) : ObjObject :=
  ⟨index, pos, ⟨0, 0⟩, ⟨0, 0, 0⟩⟩

/-- The fields of `ObjLoader` filled in by `ObjLoader::from_file`. -/
structure ObjLoader where
  indices : List Nat
  vert_data : List ℚ
  contains_tex_coords : Bool
  contains_normals : Bool
deriving DecidableEq, Repr

/-! ### String utilities

Rust's `str::split_whitespace`, `str::split('/')`, `f64::from_str` and
`i32::from_str` are modelled character-list by character-list. -/

/-- ASCII whitespace test (the concrete inputs only ever use a space). -/
def isWS (c : Char) : Bool :=
  c = ' ' || c = '\t' || c = '\n' || c = '\r'

/-- Split a character list at every separator character, keeping empty
pieces, as Rust `str::split(sep)` does (`"a//b"` gives `["a","","b"]`,
`""` gives `[""]`). -/
def splitAny (p : Char → Bool) : List Char → List (List Char)
  | [] => [[]]
  | c :: rest =>
    if p c then [] :: splitAny p rest
    else
      match splitAny p rest with
      | h :: t => (c :: h) :: t
      | [] => [[c]]

/-- Rust `str::split_whitespace`: split on whitespace and drop empty pieces. -/
def splitWS (cs : List Char) : List (List Char) :=
  (splitAny isWS cs).filter (fun t => !t.isEmpty)

/-- Rust `str::split('/')`. -/
def splitSlash (cs : List Char) : List (List Char) :=
  splitAny (fun c => c = '/') cs

/-- Value of a decimal digit character. -/
def digitVal (c : Char) : Nat :=
  c.toNat - '0'.toNat

/-- Value of a list of decimal digit characters, most significant first. -/
def digitsVal (cs : List Char) : Nat :=
  cs.foldl (fun acc c => 10 * acc + digitVal c) 0

/-- All characters are decimal digits. -/
def allDigits (cs : List Char) : Bool :=
  cs.all Char.isDigit

/-- Rust `i32::from_str`: optional sign, then one or more decimal digits,
value within the `i32` range; anything else is `none` (a parse `Err`). -/
def parseI32 (cs : List Char) : Option Int :=
  let (sgn, digs) : Int × List Char :=
    match cs with
    | '+' :: r => (1, r)
    | '-' :: r => (-1, r)
    | r => (1, r)
  if digs.isEmpty || !allDigits digs then none
  else
    let v : Int := sgn * (digitsVal digs : Int)
    if -(2 ^ 31) ≤ v ∧ v ≤ 2 ^ 31 - 1 then some v else none

/-- Exponent tail of a float literal: empty means scale 1, otherwise
`e`/`E`, an optional sign and digits, giving a power-of-ten scale. -/
def parseExp (cs : List Char) : Option ℚ :=
  match cs with
  | [] => some 1
  | e :: r =>
    if e = 'e' || e = 'E' then
      let (neg, digs) : Bool × List Char :=
        match r with
        | '+' :: r2 => (false, r2)
        | '-' :: r2 => (true, r2)
        | r2 => (false, r2)
      if digs.isEmpty || !allDigits digs then none
      else if neg then some (1 / (10 : ℚ) ^ digitsVal digs)
      else some ((10 : ℚ) ^ digitsVal digs)
    else none

/-- Rust `f64::from_str` on the decimal grammar `[+-]? digits [. digits]?
[eE [+-]? digits]?` (also `.digits` and `digits.`), with the value kept as
an exact rational; `none` models a parse `Err`.  Binary rounding of the
parsed value is not modelled: every concrete value used in the theorems
below is exactly representable. -/
def parseFloat (cs : List Char) : Option ℚ :=
  let (sgn, r1) : ℚ × List Char :=
    match cs with
    | '+' :: r => (1, r)
    | '-' :: r => (-1, r)
    | r => (1, r)
  let intPart := r1.takeWhile Char.isDigit
  let rest1 := r1.dropWhile Char.isDigit
  match rest1 with
  | '.' :: r2 =>
    let fracPart := r2.takeWhile Char.isDigit
    let rest2 := r2.dropWhile Char.isDigit
    if intPart.isEmpty && fracPart.isEmpty then none
    else
      (parseExp rest2).map (fun e =>
        sgn * ((digitsVal intPart : ℚ) +
          (digitsVal fracPart : ℚ) / (10 : ℚ) ^ fracPart.length) * e)
  | rest2 =>
    if intPart.isEmpty then none
    else (parseExp rest2).map (fun e => sgn * (digitsVal intPart : ℚ) * e)

/-! ### The parser (`obj_get_data`) -/

/-- Option-valued `mapM` over a list, written out so that kernel
evaluation is direct. -/
def optMapM {α β : Type} (f : α → Option β) : List α → Option (List β)
  | [] => some []
  | a :: l => do
    let b ← f a
    let bs ← optMapM f l
    pure (b :: bs)

/-- Option-valued left fold over a list (`none` aborts, modelling a panic
cutting the line loop short). -/
def optFoldM {α β : Type} (f : β → α → Option β) : List α → β → Option β
  | [], b => some b
  | a :: l, b => (f b a).bind (optFoldM f l)

/-- The `parse_floats` closure of `obj_get_data`: split the remainder of
the line on whitespace and parse every token as a float, panicking
(`none`) on the first token that fails to parse. -/
def parse_floats (cs : List Char) : Option (List ℚ) :=
  optMapM parseFloat (splitWS cs)

/-- Face-token conversion inside `obj_get_data`: split the token on `/`;
part 0 is mandatory and parsed as `i32` then decremented; part 1 is used
only when present and non-empty; part 2 whenever present.  Slots that are
not overwritten keep the `FaceIndex::new(0,0,0)` default.  A failed
integer parse is an `unwrap` panic (`none`). -/
def parse_face_index (tok : List Char) : Option FaceIndex :=
  let parts := splitSlash tok
  do
    let pos ←
      match parts.get? 0 with
      | some p => (parseI32 p).map (fun i => i - 1)
      | none => pure 0
    let tex ←
      match parts.get? 1 with
      | some p => if p.isEmpty then pure 0 else (parseI32 p).map (fun i => i - 1)
      | none => pure 0
    let norm ←
      match parts.get? 2 with
      | some p => (parseI32 p).map (fun i => i - 1)
      | none => pure 0
    pure (⟨pos, tex, norm⟩ : FaceIndex)

/-- One iteration of the line loop of `obj_get_data`: classify the line by
its prefix (`v ` / `vt ` / `vn ` / `f `, in the source's `if`/`else if`
order — the four patterns are mutually exclusive) and extend the
accumulated `ObjData`; any other line is ignored.  `floats[i]` on a too
short vector is an out-of-bounds panic (`none`). -/
def obj_line_step (d : ObjData) (cs : List Char) : Option ObjData :=
  match cs with
  | 'v' :: ' ' :: rest => do
    let floats ← parse_floats rest
    let x ← floats.get? 0
    let y ← floats.get? 1
    let z ← floats.get? 2
    pure { d with vert_positions := d.vert_positions ++ [⟨x, y, z⟩] }
  | 'v' :: 't' :: ' ' :: rest => do
    let floats ← parse_floats rest
    let x ← floats.get? 0
    let y ← floats.get? 1
    pure { d with tex_coords := d.tex_coords ++ [⟨x, y⟩] }
  | 'v' :: 'n' :: ' ' :: rest => do
    let floats ← parse_floats rest
    let x ← floats.get? 0
    let y ← floats.get? 1
    let z ← floats.get? 2
    pure { d with normals := d.normals ++ [⟨x, y, z⟩] }
  | 'f' :: ' ' :: rest => do
    let face ← optMapM parse_face_index (splitWS rest)
    pure { d with faces := d.faces ++ [face] }
  | _ => pure d

/-- Function `obj_get_data`: fold the line loop over the lines of the file.  The
source's return type is `Result<ObjData, Box<dyn Error>>`, but no code
path constructs an `Err` — every failure is an `unwrap` panic — so the
embedding returns `Option ObjData` with `none` for the panic. -/
def obj_get_data (lines : List (List Char)) : Option ObjData :=
  optFoldM obj_line_step lines ⟨[], [], [], []⟩

/-! ### The indexer (`index_data`) -/

/-- Rust `as usize` on an `i32`: two's-complement reinterpretation into
the unsigned 64-bit range (a negative index becomes a huge number). -/
def usizeCast (i : Int) : Nat :=
  (i % (2 ^ 64 : Int)).toNat

/-- Rust `vec[i as usize]` for an `i32` index `i`: `none` is the
out-of-bounds panic. -/
def vecGet {α : Type} (l : List α) (i : Int) : Option α :=
  l.get? (usizeCast i)

/-- Interface of the subset of `std::collections::HashMap` that
`index_data` uses: `new`, `get` and `insert`, with `get`'s specification.
A concrete hash map (whatever its iteration order or hash seed) is an
instance; the association list below is the reference instance. -/
structure MapModel (σ : Type) where
  empty : σ
  find : σ → FaceIndex → Option ObjObject
  insert : σ → FaceIndex → ObjObject → σ
  find_empty : ∀ k, find empty k = none
  find_insert_self : ∀ s k v, find (insert s k v) k = some v
  find_insert_ne : ∀ s k v k2, k2 ≠ k → find (insert s k v) k2 = find s k2

/-- State of one `index_data` run: the dedup map `obj_map` and the
first-encounter-ordered vertex list `data_vec`. -/
structure IdxState (σ : Type) where
  obj_map : σ
  data_vec : List ObjObject

/-- The texture-coordinate part of building a fresh `ObjObject`: under
`contains_tex_coords` fetch `tex_coords[fi.tex as usize]` (panicking when
out of bounds), otherwise keep the `Vec2::new(0.,0.)` placeholder of
`ObjObject::new`. -/
def tex_fetch (d : ObjData) (ctc : Bool) (fi : FaceIndex) : Option Vec2 :=
  if ctc then vecGet d.tex_coords fi.tex else some ⟨0, 0⟩

/-- The normal part of building a fresh `ObjObject`: under
`contains_normals` fetch `normals[fi.norm as usize]` (panicking when out
of bounds), otherwise keep the `Vec3::new(0.,0.,0.)` placeholder. -/
def norm_fetch (d : ObjData) (cn : Bool) (fi : FaceIndex) : Option Vec3 :=
  if cn then vecGet d.normals fi.norm else some ⟨0, 0, 0⟩

/-- The `check_index` closure of `index_data`, written against the map
interface: look the triple up; if absent, build the `ObjObject` from the
raw arrays (position always, texture/normal only under their flags: an
out-of-range fetch is a panic, `none`), insert it, and push it onto
`data_vec`; its `index` is `data_vec`'s length before the push.  Either
way the returned value is `obj_index as u32`, modelled as `% 2 ^ 32`. -/
def check_indexM {σ : Type} (M : MapModel σ) (d : ObjData) (ctc cn : Bool)
    (s : IdxState σ) (fi : FaceIndex) : Option (Nat × IdxState σ) :=
  match M.find s.obj_map fi with
  | some o => some (o.index % 2 ^ 32, s)
  | none => do
    let p ← vecGet d.vert_positions fi.pos
    let t ← tex_fetch d ctc fi
    let n ← norm_fetch d cn fi
    let o : ObjObject := ⟨s.data_vec.length, p, t, n⟩
    some (o.index % 2 ^ 32,
      ⟨M.insert s.obj_map fi o, s.data_vec ++ [o]⟩)

/-- The `while face_c.len() >= 2` fan loop of `index_data` over the tail
of one face: each iteration pushes `first_ind`, resolves the current
first two remaining triples in order, and drops the front element. -/
def fan_loopM {σ : Type} (M : MapModel σ) (d : ObjData) (ctc cn : Bool)
    (first_ind : Nat) :
    List FaceIndex → IdxState σ → List Nat → Option (List Nat × IdxState σ)
  | a :: b :: tail, s, acc => do
    let r1 ← check_indexM M d ctc cn s a
    let r2 ← check_indexM M d ctc cn r1.2 b
    fan_loopM M d ctc cn first_ind (b :: tail) r2.2
      (acc ++ [first_ind, r1.1, r2.1])
  | _, s, acc => some (acc, s)

/-- The `for face in &obj_data.faces` loop of `index_data`: resolve the
face's first triple (`face_c[0]` on an empty face is an out-of-bounds
panic, `none`), then run the fan loop on the rest. -/
def index_facesM {σ : Type} (M : MapModel σ) (d : ObjData) (ctc cn : Bool) :
    List (List FaceIndex) → IdxState σ → List Nat →
    Option (List Nat × IdxState σ)
  | [], s, acc => some (acc, s)
  | face :: rest, s, acc => do
    let f0 ← face.head?
    let r0 ← check_indexM M d ctc cn s f0
    let out ← fan_loopM M d ctc cn r0.1 face.tail r0.2 acc
    index_facesM M d ctc cn rest out.2 out.1

/-- The final emission loop of `index_data` for one `ObjObject`:
position components, then texture components under `contains_tex_coords`,
then normal components under `contains_normals`. -/
def emit_vertex (ctc cn : Bool) (o : ObjObject) : List ℚ :=
  [o.pos.x, o.pos.y, o.pos.z] ++
    (if ctc then [o.tex_coord.x, o.tex_coord.y] else []) ++
    (if cn then [o.normal.x, o.normal.y, o.normal.z] else [])

/-- Function `index_data` against the map interface: run the face loop from the
empty state, then emit `data_vec` in order into the flat vertex buffer. -/
def index_dataM {σ : Type} (M : MapModel σ) (d : ObjData) (ctc cn : Bool) :
    Option (List Nat × List ℚ) := do
  let r ← index_facesM M d ctc cn d.faces ⟨M.empty, []⟩ []
  pure (r.1, (r.2.data_vec.map (emit_vertex ctc cn)).flatten)

/-- Lookup in the association-list reference instance of the map. -/
def mapFind (m : List (FaceIndex × ObjObject)) (k : FaceIndex) :
    Option ObjObject :=
  match m with
  | [] => none
  | (k2, v) :: rest => if k2 = k then some v else mapFind rest k

/-- The association-list reference instance of the map interface. -/
def assocModel : MapModel (List (FaceIndex × ObjObject)) where
  empty := []
  find := mapFind
  insert := fun s k v => (k, v) :: s
  find_empty := fun _ => rfl
  find_insert_self := fun _ k _ => by simp [mapFind]
  find_insert_ne := fun s k v k2 h => by simp [mapFind, Ne.symm h]

/-- Concrete state type of one `index_data` run. -/
abbrev AIdxState := IdxState (List (FaceIndex × ObjObject))

/-- The `check_index` closure of the source, at the reference map. -/
def check_index (d : ObjData) (ctc cn : Bool) (s : AIdxState)
    (fi : FaceIndex) : Option (Nat × AIdxState) :=
  check_indexM assocModel d ctc cn s fi

/-- The fan loop of the source, at the reference map. -/
def fan_loop (d : ObjData) (ctc cn : Bool) (first_ind : Nat)
    (l : List FaceIndex) (s : AIdxState) (acc : List Nat) :
    Option (List Nat × AIdxState) :=
  fan_loopM assocModel d ctc cn first_ind l s acc

/-- The face loop of the source, at the reference map. -/
def index_faces (d : ObjData) (ctc cn : Bool) (faces : List (List FaceIndex))
    (s : AIdxState) (acc : List Nat) : Option (List Nat × AIdxState) :=
  index_facesM assocModel d ctc cn faces s acc

/-- Function `index_data` of the source, at the reference map. -/
def index_data (d : ObjData) (ctc cn : Bool) : Option (List Nat × List ℚ) :=
  index_dataM assocModel d ctc cn

/-- Per-vertex stride of the emitted buffer:
`3 + (hasTexCoords ? 2 : 0) + (hasNormals ? 3 : 0)`. -/
def stride (ctc cn : Bool) : Nat :=
  3 + (if ctc then 2 else 0) + (if cn then 3 else 0)

/-- Method `ObjLoader::from_file`, with the file contents already split into
lines: parse, derive the two presence flags from array non-emptiness, and
index.  Every failure inside is a panic (`none`). -/
def from_file (lines : List (List Char)) : Option ObjLoader := do
  let obj_data ← obj_get_data lines
  let contains_tex_coords : Bool := decide (0 < obj_data.tex_coords.length)
  let contains_normals : Bool := decide (0 < obj_data.normals.length)
  let r ← index_data obj_data contains_tex_coords contains_normals
  pure ⟨r.1, r.2, contains_tex_coords, contains_normals⟩

/-! ### Concrete inputs used by the claims -/

/-- The end-to-end triangle scenario of the spec:
`v 0 0 0 / v 1 0 0 / v 1 1 0 / f 1 2 3`. -/
def triangle_lines : List (List Char) :=
  [("v 0 0 0").data, ("v 1 0 0").data, ("v 1 1 0").data, ("f 1 2 3").data]

/-- The end-to-end quad scenario of the spec: four distinct positions and
one face `f 1 2 3 4`. -/
def quad_lines : List (List Char) :=
  [("v 0 0 0").data, ("v 1 0 0").data, ("v 1 1 0").data, ("v 0 1 0").data,
    ("f 1 2 3 4").data]

/-- The parsed quad data (what `obj_get_data` yields on `quad_lines`). -/
def quadFaceData : ObjData :=
  ⟨[⟨0, 0, 0⟩, ⟨1, 0, 0⟩, ⟨1, 1, 0⟩, ⟨0, 1, 0⟩], [], [],
    [[⟨0, 0, 0⟩, ⟨1, 0, 0⟩, ⟨2, 0, 0⟩, ⟨3, 0, 0⟩]]⟩

/-- The final indexer state after the quad face: four records in
first-encounter order, map keyed by the four distinct triples (most
recently inserted first). -/
def quadFaceFinal : IdxState (List (FaceIndex × ObjObject)) :=
  ⟨[(⟨3, 0, 0⟩, ⟨3, ⟨0, 1, 0⟩, ⟨0, 0⟩, ⟨0, 0, 0⟩⟩),
    (⟨2, 0, 0⟩, ⟨2, ⟨1, 1, 0⟩, ⟨0, 0⟩, ⟨0, 0, 0⟩⟩),
    (⟨1, 0, 0⟩, ⟨1, ⟨1, 0, 0⟩, ⟨0, 0⟩, ⟨0, 0, 0⟩⟩),
    (⟨0, 0, 0⟩, ⟨0, ⟨0, 0, 0⟩, ⟨0, 0⟩, ⟨0, 0, 0⟩⟩)],
   [⟨0, ⟨0, 0, 0⟩, ⟨0, 0⟩, ⟨0, 0, 0⟩⟩,
    ⟨1, ⟨1, 0, 0⟩, ⟨0, 0⟩, ⟨0, 0, 0⟩⟩,
    ⟨2, ⟨1, 1, 0⟩, ⟨0, 0⟩, ⟨0, 0, 0⟩⟩,
    ⟨3, ⟨0, 1, 0⟩, ⟨0, 0⟩, ⟨0, 0, 0⟩⟩]⟩

/-- The parsed triangle data (what `obj_get_data` yields on
`triangle_lines`). -/
def triangleData : ObjData :=
  ⟨[⟨0, 0, 0⟩, ⟨1, 0, 0⟩, ⟨1, 1, 0⟩], [], [],
    [[⟨0, 0, 0⟩, ⟨1, 0, 0⟩, ⟨2, 0, 0⟩]]⟩

/-- Mixed-presence input: the face tokens carry a texture index (`…/1`)
while no `vt` line exists, so the texture array stays empty. -/
def mixed_lines : List (List Char) :=
  [("v 0 0 0").data, ("v 1 0 0").data, ("v 1 1 0").data,
    ("f 1/1 2/1 3/1").data]

/-- The parsed mixed-presence data. -/
def mixedData : ObjData :=
  ⟨[⟨0, 0, 0⟩, ⟨1, 0, 0⟩, ⟨1, 1, 0⟩], [], [],
    [[⟨0, 0, 0⟩, ⟨1, 0, 0⟩, ⟨2, 0, 0⟩]]⟩

/-- Input for the omitted-slot claim: tokens `2//3`, `2/1/3` and `1/1/1`,
with non-empty texture and normal arrays. -/
def omitted_slot_lines : List (List Char) :=
  [("v 0 0 0").data, ("v 1 0 0").data, ("vt 0.25 0.75").data,
    ("vn 1 0 0").data, ("vn 0 1 0").data, ("vn 0 0 1").data,
    ("f 2//3 2/1/3 1/1/1").data]

/-! ### Derived notions used to state the claims -/

/-- The output index finally associated to a triple: the stored `index`
of its map entry, narrowed `as u32` (defaults to `0` for an absent
triple; the theorems using it always prove the entry present). -/
def finalIdx (s : AIdxState) (fi : FaceIndex) : Nat :=
  ((mapFind s.obj_map fi).map (fun o => o.index % 2 ^ 32)).getD 0

/-- Fan order from vertex 0, as the spec words it: with `i0` the resolved
first vertex and `f` the per-triple resolved index, the remaining
vertices `[v1, …, v_{N-1}]` yield the triangles
`(i0, f v_i, f v_{i+1})` for `i = 1 … N-2`, flattened in order. -/
def fanPairs (i0 : Nat) (f : FaceIndex → Nat) : List FaceIndex → List Nat
  | a :: b :: tail => i0 :: f a :: f b :: fanPairs i0 f (b :: tail)
  | _ => []

/-- The keys of the association-list dedup map, most recent first. -/
def keysOf (s : AIdxState) : List FaceIndex :=
  s.obj_map.map Prod.fst

/-- Every map entry's stored index points inside `data_vec` (generic in
the map implementation). -/
def IdxInv {σ : Type} (M : MapModel σ) (s : IdxState σ) : Prop :=
  ∀ k o, M.find s.obj_map k = some o → o.index < s.data_vec.length

/-- Well-formedness of the association-list indexer state: keys are
distinct, the map and `data_vec` have the same size, every stored record
sits in `data_vec`, and `data_vec` is ordered by its `index` field. -/
def StWF (s : AIdxState) : Prop :=
  (keysOf s).Nodup ∧
  s.obj_map.length = s.data_vec.length ∧
  (∀ k o, mapFind s.obj_map k = some o → o ∈ s.data_vec) ∧
  (∀ j (h : j < s.data_vec.length), (s.data_vec.get ⟨j, h⟩).index = j)

/-- Correspondence between the states of the same indexer run executed
over two different map implementations: the vertex lists agree and the
maps answer every lookup identically. -/
def StRel {σ1 σ2 : Type} (M1 : MapModel σ1) (M2 : MapModel σ2)
    (s1 : IdxState σ1) (s2 : IdxState σ2) : Prop :=
  s1.data_vec = s2.data_vec ∧
  ∀ k, M1.find s1.obj_map k = M2.find s2.obj_map k

/-! ### Basic lemmas about `check_indexM` -/

section CheckLemmas

variable {σ : Type} (M : MapModel σ) (d : ObjData) (ctc cn : Bool)

/-- A triple already in the map is answered from the map: the state is
untouched and the stored `index` (as `u32`) is returned. -/
theorem check_indexM_found {s : IdxState σ} {fi : FaceIndex} {o : ObjObject}
    (h : M.find s.obj_map fi = some o) :
    check_indexM M d ctc cn s fi = some (o.index % 2 ^ 32, s) := by
  simp [check_indexM, h]

/-- Inversion for a successful `check_index` call: either the triple was
found (state unchanged), or it was absent and one record with the next
dense index was appended and inserted. -/
theorem check_indexM_some_cases {s s' : IdxState σ} {fi : FaceIndex} {i : Nat}
    (h : check_indexM M d ctc cn s fi = some (i, s')) :
    (∃ o, M.find s.obj_map fi = some o ∧ i = o.index % 2 ^ 32 ∧ s' = s) ∨
    (M.find s.obj_map fi = none ∧ ∃ o : ObjObject,
      o.index = s.data_vec.length ∧ i = s.data_vec.length % 2 ^ 32 ∧
      s' = ⟨M.insert s.obj_map fi o, s.data_vec ++ [o]⟩) := by
  unfold check_indexM at h
  cases hf : M.find s.obj_map fi with
  | some o =>
    rw [hf] at h
    have h2 := Option.some.inj h
    exact Or.inl ⟨o, rfl, (congrArg Prod.fst h2).symm, (congrArg Prod.snd h2).symm⟩
  | none =>
    rw [hf] at h
    cases hp : vecGet d.vert_positions fi.pos with
    | none => simp [hp] at h
    | some p =>
      cases ht : tex_fetch d ctc fi with
      | none => simp [hp, ht] at h
      | some t =>
        cases hn : norm_fetch d cn fi with
        | none => simp [hp, ht, hn] at h
        | some n =>
          simp [hp, ht, hn, Prod.ext_iff] at h
          exact Or.inr ⟨rfl, ⟨⟨s.data_vec.length, p, t, n⟩, rfl, h.1.symm, h.2.symm⟩⟩

/-- A successful `check_index` call only ever appends to `data_vec`. -/
theorem check_indexM_data_mono {s s' : IdxState σ} {fi : FaceIndex} {i : Nat}
    (h : check_indexM M d ctc cn s fi = some (i, s')) :
    ∃ t, s'.data_vec = s.data_vec ++ t := by
  rcases check_indexM_some_cases M d ctc cn h with ⟨o, _, _, rfl⟩ | ⟨_, o, _, _, rfl⟩
  · exact ⟨[], by simp⟩
  · exact ⟨[o], rfl⟩

/-- A successful `check_index` call preserves every existing map entry. -/
theorem check_indexM_persist {s s' : IdxState σ} {fi : FaceIndex} {i : Nat}
    (h : check_indexM M d ctc cn s fi = some (i, s'))
    {k : FaceIndex} {v : ObjObject} (hk : M.find s.obj_map k = some v) :
    M.find s'.obj_map k = some v := by
  rcases check_indexM_some_cases M d ctc cn h with ⟨o, _, _, rfl⟩ | ⟨hnone, o, _, _, rfl⟩
  · exact hk
  · have hne : k ≠ fi := by
      intro he; rw [he, hnone] at hk; exact Option.noConfusion hk
    simpa [M.find_insert_ne _ _ _ _ hne] using hk

/-- After a successful `check_index` call the triple is in the map and the
returned value is its stored index as `u32`. -/
theorem check_indexM_post {s s' : IdxState σ} {fi : FaceIndex} {i : Nat}
    (h : check_indexM M d ctc cn s fi = some (i, s')) :
    ∃ o, M.find s'.obj_map fi = some o ∧ o.index % 2 ^ 32 = i := by
  rcases check_indexM_some_cases M d ctc cn h with ⟨o, hf, hi, rfl⟩ | ⟨_, o, hidx, hi, rfl⟩
  · exact ⟨o, hf, hi.symm⟩
  · exact ⟨o, M.find_insert_self _ _ _, by rw [hidx, hi]⟩

end CheckLemmas

/-! ### Lemmas about the fan loop and the face loop -/

section LoopLemmas

variable {σ : Type} (M : MapModel σ) (d : ObjData) (ctc cn : Bool) (i0 : Nat)

/-- The fan loop does nothing on an empty remainder. -/
theorem fan_loopM_nil (s : IdxState σ) (acc : List Nat) :
    fan_loopM M d ctc cn i0 [] s acc = some (acc, s) := rfl

/-- The fan loop does nothing on a one-element remainder. -/
theorem fan_loopM_single (a : FaceIndex) (s : IdxState σ) (acc : List Nat) :
    fan_loopM M d ctc cn i0 [a] s acc = some (acc, s) := rfl

/-- Inversion of one successful iteration of the fan loop. -/
theorem fan_loopM_cons_some {a b : FaceIndex} {tail : List FaceIndex}
    {s s' : IdxState σ} {acc idx : List Nat}
    (h : fan_loopM M d ctc cn i0 (a :: b :: tail) s acc = some (idx, s')) :
    ∃ i1 s1 i2 s2, check_indexM M d ctc cn s a = some (i1, s1) ∧
      check_indexM M d ctc cn s1 b = some (i2, s2) ∧
      fan_loopM M d ctc cn i0 (b :: tail) s2 (acc ++ [i0, i1, i2]) =
        some (idx, s') := by
  unfold fan_loopM at h
  cases h1 : check_indexM M d ctc cn s a with
  | none => rw [h1] at h; exact absurd h (by simp)
  | some r1 =>
    rw [h1] at h
    replace h : (check_indexM M d ctc cn r1.2 b).bind
        (fun r2 => fan_loopM M d ctc cn i0 (b :: tail) r2.2
          (acc ++ [i0, r1.1, r2.1])) = some (idx, s') := h
    cases h2 : check_indexM M d ctc cn r1.2 b with
    | none => rw [h2] at h; exact absurd h (by simp)
    | some r2 =>
      rw [h2] at h
      exact ⟨r1.1, r1.2, r2.1, r2.2, rfl, h2, h⟩

/-- The fan loop preserves every existing map entry. -/
theorem fan_loopM_persist :
    ∀ (l : List FaceIndex) (s : IdxState σ) (acc idx : List Nat)
      (s' : IdxState σ),
      fan_loopM M d ctc cn i0 l s acc = some (idx, s') →
      ∀ k v, M.find s.obj_map k = some v → M.find s'.obj_map k = some v := by
  intro l
  induction l with
  | nil => intro s acc idx s' h k v hk; rw [fan_loopM_nil] at h
           cases h; exact hk
  | cons a rest ih =>
    intro s acc idx s' h k v hk
    cases rest with
    | nil => rw [fan_loopM_single] at h; cases h; exact hk
    | cons b tail =>
      obtain ⟨i1, s1, i2, s2, h1, h2, h3⟩ := fan_loopM_cons_some M d ctc cn i0 h
      exact ih s2 _ idx s' h3 k v
        (check_indexM_persist M d ctc cn h2 (check_indexM_persist M d ctc cn h1 hk))

/-- The fan loop only ever appends to `data_vec`. -/
theorem fan_loopM_data_mono :
    ∀ (l : List FaceIndex) (s : IdxState σ) (acc idx : List Nat)
      (s' : IdxState σ),
      fan_loopM M d ctc cn i0 l s acc = some (idx, s') →
      ∃ t, s'.data_vec = s.data_vec ++ t := by
  intro l
  induction l with
  | nil => intro s acc idx s' h; rw [fan_loopM_nil] at h; cases h
           exact ⟨[], by simp⟩
  | cons a rest ih =>
    intro s acc idx s' h
    cases rest with
    | nil => rw [fan_loopM_single] at h; cases h; exact ⟨[], by simp⟩
    | cons b tail =>
      obtain ⟨i1, s1, i2, s2, h1, h2, h3⟩ := fan_loopM_cons_some M d ctc cn i0 h
      obtain ⟨t1, e1⟩ := check_indexM_data_mono M d ctc cn h1
      obtain ⟨t2, e2⟩ := check_indexM_data_mono M d ctc cn h2
      obtain ⟨t3, e3⟩ := ih s2 _ idx s' h3
      exact ⟨t1 ++ t2 ++ t3, by rw [e3, e2, e1]; simp⟩

/-- The fan loop only ever appends to the index accumulator, three
entries at a time. -/
theorem fan_loopM_acc_mod3 :
    ∀ (l : List FaceIndex) (s : IdxState σ) (acc idx : List Nat)
      (s' : IdxState σ),
      fan_loopM M d ctc cn i0 l s acc = some (idx, s') →
      idx.length % 3 = acc.length % 3 := by
  intro l
  induction l with
  | nil => intro s acc idx s' h; rw [fan_loopM_nil] at h; cases h; rfl
  | cons a rest ih =>
    intro s acc idx s' h
    cases rest with
    | nil => rw [fan_loopM_single] at h; cases h; rfl
    | cons b tail =>
      obtain ⟨i1, s1, i2, s2, h1, h2, h3⟩ := fan_loopM_cons_some M d ctc cn i0 h
      have := ih s2 _ idx s' h3
      simpa [Nat.add_mod] using this

/-- The closure `check_index` keeps all stored indices dense: under `IdxInv` the
returned index points into the (new) `data_vec` and `data_vec` never
shrinks. -/
theorem check_indexM_inv {s s' : IdxState σ} {fi : FaceIndex} {i : Nat}
    (hinv : IdxInv M s) (h : check_indexM M d ctc cn s fi = some (i, s')) :
    IdxInv M s' ∧ i < s'.data_vec.length ∧
      s.data_vec.length ≤ s'.data_vec.length := by
  rcases check_indexM_some_cases M d ctc cn h with
    ⟨o, hf, hi, rfl⟩ | ⟨hnone, o, hidx, hi, rfl⟩
  · exact ⟨hinv, hi ▸ lt_of_le_of_lt (Nat.mod_le _ _) (hinv _ _ hf), le_refl _⟩
  · refine ⟨?_, ?_, by simp⟩
    · intro k v hk
      by_cases he : k = fi
      · subst he
        rw [M.find_insert_self] at hk
        cases hk
        simp [hidx]
      · rw [M.find_insert_ne _ _ _ _ he] at hk
        calc v.index < s.data_vec.length := hinv _ _ hk
        _ ≤ (s.data_vec ++ [o]).length := by simp
    · calc i ≤ s.data_vec.length := hi ▸ Nat.mod_le _ _
      _ < (s.data_vec ++ [o]).length := by simp

/-- Fan-loop version of `check_indexM_inv`: every index emitted into the
accumulator is strictly below the final `data_vec` length. -/
theorem fan_loopM_inv :
    ∀ (l : List FaceIndex) (s : IdxState σ) (acc idx : List Nat)
      (s' : IdxState σ),
      fan_loopM M d ctc cn i0 l s acc = some (idx, s') →
      IdxInv M s → (∀ x ∈ acc, x < s.data_vec.length) →
      i0 < s.data_vec.length →
      IdxInv M s' ∧ (∀ x ∈ idx, x < s'.data_vec.length) ∧
        s.data_vec.length ≤ s'.data_vec.length := by
  intro l
  induction l with
  | nil => intro s acc idx s' h hinv hacc hi0
           rw [fan_loopM_nil] at h; cases h; exact ⟨hinv, hacc, le_refl _⟩
  | cons a rest ih =>
    intro s acc idx s' h hinv hacc hi0
    cases rest with
    | nil => rw [fan_loopM_single] at h; cases h; exact ⟨hinv, hacc, le_refl _⟩
    | cons b tail =>
      obtain ⟨i1, s1, i2, s2, h1, h2, h3⟩ := fan_loopM_cons_some M d ctc cn i0 h
      obtain ⟨hinv1, hb1, hl1⟩ := check_indexM_inv M d ctc cn hinv h1
      obtain ⟨hinv2, hb2, hl2⟩ := check_indexM_inv M d ctc cn hinv1 h2
      have hacc2 : ∀ x ∈ acc ++ [i0, i1, i2], x < s2.data_vec.length := by
        intro x hx
        rcases List.mem_append.mp hx with hx | hx
        · exact lt_of_lt_of_le (hacc x hx) (le_trans hl1 hl2)
        · simp only [List.mem_cons, List.not_mem_nil, or_false] at hx
          rcases hx with rfl | rfl | rfl
          · exact lt_of_lt_of_le hi0 (le_trans hl1 hl2)
          · exact lt_of_lt_of_le hb1 hl2
          · exact hb2
      obtain ⟨hinv3, hidx, hl3⟩ := ih s2 _ idx s' h3 hinv2 hacc2
        (lt_of_lt_of_le hi0 (le_trans hl1 hl2))
      exact ⟨hinv3, hidx, le_trans (le_trans hl1 hl2) hl3⟩

/-- The face loop does nothing on an empty face list. -/
theorem index_facesM_nil (s : IdxState σ) (acc : List Nat) :
    index_facesM M d ctc cn [] s acc = some (acc, s) := rfl

/-- Inversion of one successful face of the face loop. -/
theorem index_facesM_cons_some {face : List FaceIndex}
    {rest : List (List FaceIndex)} {s s' : IdxState σ} {acc idx : List Nat}
    (h : index_facesM M d ctc cn (face :: rest) s acc = some (idx, s')) :
    ∃ f0 i00 s0 mid midS, face.head? = some f0 ∧
      check_indexM M d ctc cn s f0 = some (i00, s0) ∧
      fan_loopM M d ctc cn i00 face.tail s0 acc = some (mid, midS) ∧
      index_facesM M d ctc cn rest midS mid = some (idx, s') := by
  unfold index_facesM at h
  cases hh : face.head? with
  | none => rw [hh] at h; exact absurd h (by simp)
  | some f0 =>
    rw [hh] at h
    replace h : (check_indexM M d ctc cn s f0).bind
        (fun r0 => (fan_loopM M d ctc cn r0.1 face.tail r0.2 acc).bind
          (fun out => index_facesM M d ctc cn rest out.2 out.1)) =
        some (idx, s') := h
    cases h0 : check_indexM M d ctc cn s f0 with
    | none => rw [h0] at h; exact absurd h (by simp)
    | some r0 =>
      rw [h0] at h
      replace h : (fan_loopM M d ctc cn r0.1 face.tail r0.2 acc).bind
          (fun out => index_facesM M d ctc cn rest out.2 out.1) =
          some (idx, s') := h
      cases h1 : fan_loopM M d ctc cn r0.1 face.tail r0.2 acc with
      | none => rw [h1] at h; exact absurd h (by simp)
      | some out =>
        rw [h1] at h
        exact ⟨f0, r0.1, r0.2, out.1, out.2, rfl, h0, h1, h⟩

/-- The face loop preserves every existing map entry. -/
theorem index_facesM_persist :
    ∀ (faces : List (List FaceIndex)) (s : IdxState σ) (acc idx : List Nat)
      (s' : IdxState σ),
      index_facesM M d ctc cn faces s acc = some (idx, s') →
      ∀ k v, M.find s.obj_map k = some v → M.find s'.obj_map k = some v := by
  intro faces
  induction faces with
  | nil => intro s acc idx s' h k v hk; rw [index_facesM_nil] at h
           cases h; exact hk
  | cons face rest ih =>
    intro s acc idx s' h k v hk
    obtain ⟨f0, i00, s0, mid, midS, _, h0, h1, h2⟩ :=
      index_facesM_cons_some M d ctc cn h
    exact ih midS mid idx s' h2 k v
      (fan_loopM_persist M d ctc cn i00 _ _ _ _ _ h1 k v
        (check_indexM_persist M d ctc cn h0 hk))

/-- The face loop only ever appends to `data_vec`. -/
theorem index_facesM_data_mono :
    ∀ (faces : List (List FaceIndex)) (s : IdxState σ) (acc idx : List Nat)
      (s' : IdxState σ),
      index_facesM M d ctc cn faces s acc = some (idx, s') →
      ∃ t, s'.data_vec = s.data_vec ++ t := by
  intro faces
  induction faces with
  | nil => intro s acc idx s' h; rw [index_facesM_nil] at h; cases h
           exact ⟨[], by simp⟩
  | cons face rest ih =>
    intro s acc idx s' h
    obtain ⟨f0, i00, s0, mid, midS, _, h0, h1, h2⟩ :=
      index_facesM_cons_some M d ctc cn h
    obtain ⟨t1, e1⟩ := check_indexM_data_mono M d ctc cn h0
    obtain ⟨t2, e2⟩ := fan_loopM_data_mono M d ctc cn i00 _ _ _ _ _ h1
    obtain ⟨t3, e3⟩ := ih midS mid idx s' h2
    exact ⟨t1 ++ t2 ++ t3, by rw [e3, e2, e1]; simp⟩

/-- Face-loop version of `fan_loopM_inv`. -/
theorem index_facesM_inv :
    ∀ (faces : List (List FaceIndex)) (s : IdxState σ) (acc idx : List Nat)
      (s' : IdxState σ),
      index_facesM M d ctc cn faces s acc = some (idx, s') →
      IdxInv M s → (∀ x ∈ acc, x < s.data_vec.length) →
      IdxInv M s' ∧ (∀ x ∈ idx, x < s'.data_vec.length) ∧
        s.data_vec.length ≤ s'.data_vec.length := by
  intro faces
  induction faces with
  | nil => intro s acc idx s' h hinv hacc
           rw [index_facesM_nil] at h; cases h; exact ⟨hinv, hacc, le_refl _⟩
  | cons face rest ih =>
    intro s acc idx s' h hinv hacc
    obtain ⟨f0, i00, s0, mid, midS, _, h0, h1, h2⟩ :=
      index_facesM_cons_some M d ctc cn h
    obtain ⟨hinv0, hb0, hl0⟩ := check_indexM_inv M d ctc cn hinv h0
    obtain ⟨hinv1, hmid, hl1⟩ := fan_loopM_inv M d ctc cn i00 _ _ _ _ _ h1 hinv0
      (fun x hx => lt_of_lt_of_le (hacc x hx) hl0) hb0
    obtain ⟨hinv2, hidx, hl2⟩ := ih midS mid idx s' h2 hinv1 hmid
    exact ⟨hinv2, hidx, le_trans hl0 (le_trans hl1 hl2)⟩

/-- The face loop appends indices in multiples of three. -/
theorem index_facesM_acc_mod3 :
    ∀ (faces : List (List FaceIndex)) (s : IdxState σ) (acc idx : List Nat)
      (s' : IdxState σ),
      index_facesM M d ctc cn faces s acc = some (idx, s') →
      idx.length % 3 = acc.length % 3 := by
  intro faces
  induction faces with
  | nil => intro s acc idx s' h; rw [index_facesM_nil] at h; cases h; rfl
  | cons face rest ih =>
    intro s acc idx s' h
    obtain ⟨f0, i00, s0, mid, midS, _, h0, h1, h2⟩ :=
      index_facesM_cons_some M d ctc cn h
    rw [ih midS mid idx s' h2, fan_loopM_acc_mod3 M d ctc cn i00 _ _ _ _ _ h1]

end LoopLemmas

/-! ### Emission and whole-run lemmas -/

/-- One emitted record always occupies exactly `stride` values. -/
theorem emit_vertex_length (ctc cn : Bool) (o : ObjObject) :
    (emit_vertex ctc cn o).length = stride ctc cn := by
  cases ctc <;> cases cn <;> simp [emit_vertex, stride]

/-- The stride is positive. -/
theorem stride_pos (ctc cn : Bool) : 0 < stride ctc cn := by
  cases ctc <;> cases cn <;> simp [stride]

/-- The flat vertex buffer of a record list has length
`count * stride`. -/
theorem emit_all_length (ctc cn : Bool) (l : List ObjObject) :
    ((l.map (emit_vertex ctc cn)).flatten).length = l.length * stride ctc cn := by
  induction l with
  | nil => simp
  | cons o rest ih => simp [ih, emit_vertex_length, Nat.succ_mul, Nat.add_comm]

/-- Inversion of a successful `index_dataM` run. -/
theorem index_dataM_some {σ : Type} (M : MapModel σ) (d : ObjData)
    (ctc cn : Bool) {idx : List Nat} {vb : List ℚ}
    (h : index_dataM M d ctc cn = some (idx, vb)) :
    ∃ s', index_facesM M d ctc cn d.faces ⟨M.empty, []⟩ [] = some (idx, s') ∧
      vb = (s'.data_vec.map (emit_vertex ctc cn)).flatten := by
  unfold index_dataM at h
  cases hr : index_facesM M d ctc cn d.faces ⟨M.empty, []⟩ [] with
  | none => rw [hr] at h; exact absurd h (by simp)
  | some r =>
    rw [hr] at h
    have h' : ((idx, vb) : List Nat × List ℚ) =
        (r.1, (r.2.data_vec.map (emit_vertex ctc cn)).flatten) :=
      (Option.some.inj h).symm
    have h1 : idx = r.1 := congrArg Prod.fst h'
    have h2 : vb = (r.2.data_vec.map (emit_vertex ctc cn)).flatten :=
      congrArg Prod.snd h'
    subst h1
    exact ⟨r.2, rfl, h2⟩

/-- Inversion of a successful `from_file` run. -/
theorem from_file_some {lines : List (List Char)} {out : ObjLoader}
    (h : from_file lines = some out) :
    ∃ d idx vb, obj_get_data lines = some d ∧
      out.contains_tex_coords = decide (0 < d.tex_coords.length) ∧
      out.contains_normals = decide (0 < d.normals.length) ∧
      index_data d out.contains_tex_coords out.contains_normals =
        some (idx, vb) ∧
      out.indices = idx ∧ out.vert_data = vb := by
  unfold from_file at h
  cases hd : obj_get_data lines with
  | none => rw [hd] at h; exact absurd h (by simp)
  | some d =>
    rw [hd] at h
    replace h : (index_data d (decide (0 < d.tex_coords.length))
        (decide (0 < d.normals.length))).bind
        (fun r => some (⟨r.1, r.2, decide (0 < d.tex_coords.length),
          decide (0 < d.normals.length)⟩ : ObjLoader)) = some out := h
    cases hr : index_data d (decide (0 < d.tex_coords.length))
        (decide (0 < d.normals.length)) with
    | none => rw [hr] at h; exact absurd h (by simp)
    | some r =>
      rw [hr] at h
      replace h : (⟨r.1, r.2, decide (0 < d.tex_coords.length),
          decide (0 < d.normals.length)⟩ : ObjLoader) = out :=
        Option.some.inj h
      subst h
      exact ⟨d, r.1, r.2, rfl, rfl, rfl, hr, rfl, rfl⟩

/-! ### Association-list map lemmas -/

/-- A key has an entry iff it occurs among the stored keys. -/
theorem mapFind_isSome_iff (m : List (FaceIndex × ObjObject)) (k : FaceIndex) :
    (∃ o, mapFind m k = some o) ↔ k ∈ m.map Prod.fst := by
  induction m with
  | nil => simp [mapFind]
  | cons e rest ih =>
    obtain ⟨k2, v⟩ := e
    by_cases he : k2 = k
    · subst he; simp [mapFind]
    · simp [mapFind, he, ih, Ne.symm he]

/-- A key has no entry iff it does not occur among the stored keys. -/
theorem mapFind_eq_none_iff (m : List (FaceIndex × ObjObject)) (k : FaceIndex) :
    mapFind m k = none ↔ k ∉ m.map Prod.fst := by
  rw [← mapFind_isSome_iff]
  cases h : mapFind m k <;> simp [h]

/-! ### Shape of the emitted index list for one face -/

/-- Length of the fan output: three entries per triangle,
`N - 1` remaining vertices give `N - 2` triangles. -/
theorem fanPairs_length (i0 : Nat) (f : FaceIndex → Nat) :
    ∀ l : List FaceIndex, (fanPairs i0 f l).length = 3 * (l.length - 1) := by
  intro l
  induction l with
  | nil => rfl
  | cons a rest ih =>
    cases rest with
    | nil => rfl
    | cons b tail =>
      have h2 : fanPairs i0 f (a :: b :: tail) =
          i0 :: f a :: f b :: fanPairs i0 f (b :: tail) := rfl
      rw [h2]
      simp only [List.length_cons, ih]
      omega

/-- The fan output written positionally, as the spec words it: triangle
`j` (for `j = 0 … N-3`, i.e. `i = j+1` in 1-based terms) is
`(i0, f l_j, f l_{j+1})` over the post-head vertex list `l`. -/
theorem fanPairs_range (i0 : Nat) (f : FaceIndex → Nat) :
    ∀ (l : List FaceIndex) (dflt : FaceIndex),
      fanPairs i0 f l =
        ((List.range (l.length - 1)).map
          (fun j => [i0, f (l.getD j dflt), f (l.getD (j + 1) dflt)])).flatten := by
  intro l
  induction l with
  | nil => intro dflt; rfl
  | cons a rest ih =>
    intro dflt
    cases rest with
    | nil => rfl
    | cons b tail =>
      have h2 : fanPairs i0 f (a :: b :: tail) =
          i0 :: f a :: f b :: fanPairs i0 f (b :: tail) := rfl
      have h3 : (a :: b :: tail).length - 1 = ((b :: tail).length - 1) + 1 := by
        simp
      rw [h2, ih dflt, h3, List.range_succ_eq_map]
      simp only [List.map_cons, List.map_map, List.flatten_cons]
      have h4 : ((List.range ((b :: tail).length - 1)).map
          ((fun j => [i0, f ((a :: b :: tail).getD j dflt),
            f ((a :: b :: tail).getD (j + 1) dflt)]) ∘ Nat.succ)) =
          ((List.range ((b :: tail).length - 1)).map
          (fun j => [i0, f ((b :: tail).getD j dflt),
            f ((b :: tail).getD (j + 1) dflt)])) := by
        apply List.map_congr_left
        intro j _
        simp [Function.comp]
      rw [h4]
      simp

/-- The fan loop emits exactly `acc ++ fanPairs`, where every resolved
index is the one stored for its triple in the final map. -/
theorem fan_loop_shape (d : ObjData) (ctc cn : Bool) (i0 : Nat) :
    ∀ (l : List FaceIndex) (s : AIdxState) (acc idx : List Nat)
      (s' : AIdxState),
      fan_loop d ctc cn i0 l s acc = some (idx, s') →
      idx = acc ++ fanPairs i0 (finalIdx s') l := by
  intro l
  induction l with
  | nil =>
    intro s acc idx s' h
    rw [fan_loop, fan_loopM_nil] at h
    cases h; simp [fanPairs]
  | cons a rest ih =>
    intro s acc idx s' h
    cases rest with
    | nil =>
      rw [fan_loop, fan_loopM_single] at h
      cases h; simp [fanPairs]
    | cons b tail =>
      rw [fan_loop] at h
      obtain ⟨i1, s1, i2, s2, h1, h2, h3⟩ :=
        fan_loopM_cons_some assocModel d ctc cn i0 h
      obtain ⟨o1, ho1, hi1⟩ := check_indexM_post assocModel d ctc cn h1
      obtain ⟨o2, ho2, hi2⟩ := check_indexM_post assocModel d ctc cn h2
      have ho1' : mapFind s'.obj_map a = some o1 :=
        fan_loopM_persist assocModel d ctc cn i0 _ _ _ _ _ h3 a o1
          (check_indexM_persist assocModel d ctc cn h2 ho1)
      have ho2' : mapFind s'.obj_map b = some o2 :=
        fan_loopM_persist assocModel d ctc cn i0 _ _ _ _ _ h3 b o2 ho2
      have e1 : finalIdx s' a = i1 := by
        unfold finalIdx; rw [ho1']; simpa using hi1
      have e2 : finalIdx s' b = i2 := by
        unfold finalIdx; rw [ho2']; simpa using hi2
      have h4 : fanPairs i0 (finalIdx s') (a :: b :: tail) =
          i0 :: finalIdx s' a :: finalIdx s' b ::
            fanPairs i0 (finalIdx s') (b :: tail) := rfl
      rw [ih s2 _ idx s' h3, h4, e1, e2]
      simp

/-- Once the fan loop has run over at least two remaining vertices, every
triple of the remainder has an entry in the final map. -/
theorem fan_loop_coverage (d : ObjData) (ctc cn : Bool) (i0 : Nat) :
    ∀ (l : List FaceIndex) (s : AIdxState) (acc idx : List Nat)
      (s' : AIdxState),
      fan_loop d ctc cn i0 l s acc = some (idx, s') → 2 ≤ l.length →
      ∀ fi ∈ l, ∃ o, mapFind s'.obj_map fi = some o := by
  intro l
  induction l with
  | nil => intro s acc idx s' _ hlen; simp at hlen
  | cons a rest ih =>
    intro s acc idx s' h hlen fi hfi
    cases rest with
    | nil => simp at hlen
    | cons b tail =>
      rw [fan_loop] at h
      obtain ⟨i1, s1, i2, s2, h1, h2, h3⟩ :=
        fan_loopM_cons_some assocModel d ctc cn i0 h
      obtain ⟨o1, ho1, _⟩ := check_indexM_post assocModel d ctc cn h1
      obtain ⟨o2, ho2, _⟩ := check_indexM_post assocModel d ctc cn h2
      rcases List.mem_cons.mp hfi with rfl | hfi2
      · exact ⟨o1, fan_loopM_persist assocModel d ctc cn i0 _ _ _ _ _ h3 fi o1
          (check_indexM_persist assocModel d ctc cn h2 ho1)⟩
      · cases tail with
        | nil =>
          rcases List.mem_singleton.mp hfi2 with rfl
          rw [fan_loopM_single] at h3
          cases h3
          exact ⟨o2, ho2⟩
        | cons c tail2 =>
          exact ih s2 _ idx s' (by rw [fan_loop]; exact h3) (by simp) fi hfi2

/-- Processing a single face `v0 :: tail` appends exactly the fan output
of the face, with every emitted value being the final stored index of its
triple, and resolves the head triple. -/
theorem face_shape (d : ObjData) (ctc cn : Bool) (v0 : FaceIndex)
    (tail : List FaceIndex) (s : AIdxState) (acc idx : List Nat)
    (s' : AIdxState)
    (h : index_faces d ctc cn [v0 :: tail] s acc = some (idx, s')) :
    idx = acc ++ fanPairs (finalIdx s' v0) (finalIdx s') tail ∧
      (∃ o, mapFind s'.obj_map v0 = some o) ∧
      (2 ≤ tail.length → ∀ fi ∈ tail, ∃ o, mapFind s'.obj_map fi = some o) := by
  rw [index_faces] at h
  obtain ⟨f0, i00, s0, mid, midS, hh, h0, h1, h2⟩ :=
    index_facesM_cons_some assocModel d ctc cn h
  have hf0 : f0 = v0 := by simpa using hh.symm
  rw [hf0] at h0
  rw [index_facesM_nil] at h2
  have hmid : mid = idx := congrArg Prod.fst (Option.some.inj h2)
  have hms : midS = s' := congrArg Prod.snd (Option.some.inj h2)
  rw [hmid, hms] at h1
  obtain ⟨o0, ho0, hi0⟩ := check_indexM_post assocModel d ctc cn h0
  have h1' : fan_loopM assocModel d ctc cn i00 tail s0 acc = some (idx, s') := h1
  have ho0' : mapFind s'.obj_map v0 = some o0 :=
    fan_loopM_persist assocModel d ctc cn i00 _ _ _ _ _ h1' v0 o0 ho0
  have e0 : finalIdx s' v0 = i00 := by
    unfold finalIdx; rw [ho0']; simpa using hi0
  have hsh := fan_loop_shape d ctc cn i00 tail s0 acc idx s'
    (by rw [fan_loop]; exact h1')
  have hcov := fan_loop_coverage d ctc cn i00 tail s0 acc idx s'
    (by rw [fan_loop]; exact h1')
  rw [e0]
  exact ⟨hsh, ⟨o0, ho0'⟩, hcov⟩

/-! ### Keys of the dedup map and well-formedness -/

/-- The closure `check_index` makes the key set exactly grow by the looked-up
triple. -/
theorem check_index_keys {d : ObjData} {ctc cn : Bool} {s s' : AIdxState}
    {fi : FaceIndex} {i : Nat}
    (h : check_indexM assocModel d ctc cn s fi = some (i, s')) :
    (keysOf s').toFinset = insert fi (keysOf s).toFinset := by
  rcases check_indexM_some_cases assocModel d ctc cn h with
    ⟨o, hf, _, hss⟩ | ⟨hnone, o, _, _, rfl⟩
  · rw [hss]
    have hmem : fi ∈ keysOf s := (mapFind_isSome_iff _ _).mp ⟨o, hf⟩
    exact (Finset.insert_eq_self.mpr (List.mem_toFinset.mpr hmem)).symm
  · have hk : keysOf (⟨assocModel.insert s.obj_map fi o, s.data_vec ++ [o]⟩ :
        AIdxState) = fi :: keysOf s := rfl
    rw [hk, List.toFinset_cons]

/-- Appending one record whose `index` equals the old length keeps the
vertex list ordered by `index`. -/
theorem get_append_index (dv : List ObjObject) (o : ObjObject)
    (hord : ∀ j (h : j < dv.length), (dv.get ⟨j, h⟩).index = j)
    (hidx : o.index = dv.length) :
    ∀ j (h : j < (dv ++ [o]).length), ((dv ++ [o]).get ⟨j, h⟩).index = j := by
  intro j h
  rw [List.get_eq_getElem]
  by_cases hlt : j < dv.length
  · rw [List.getElem_append_left hlt]
    rw [← List.get_eq_getElem dv ⟨j, hlt⟩]
    exact hord j hlt
  · have hj' : j = dv.length := by simp at h; omega
    subst hj'
    simp [hidx]

/-- The closure `check_index` preserves state well-formedness. -/
theorem check_index_WF {d : ObjData} {ctc cn : Bool} {s s' : AIdxState}
    {fi : FaceIndex} {i : Nat}
    (h : check_indexM assocModel d ctc cn s fi = some (i, s'))
    (hwf : StWF s) : StWF s' := by
  obtain ⟨hnd, hlen, hmem, hord⟩ := hwf
  rcases check_indexM_some_cases assocModel d ctc cn h with
    ⟨o, hf, _, rfl⟩ | ⟨hnone, o, hidx, _, rfl⟩
  · exact ⟨hnd, hlen, hmem, hord⟩
  · have hnotin : fi ∉ keysOf s := (mapFind_eq_none_iff _ _).mp hnone
    refine ⟨?_, ?_, ?_, ?_⟩
    · exact List.nodup_cons.mpr ⟨hnotin, hnd⟩
    · show ((fi, o) :: s.obj_map).length = (s.data_vec ++ [o]).length
      simp [hlen]
    · intro k v hk
      replace hk : mapFind ((fi, o) :: s.obj_map) k = some v := hk
      by_cases he : fi = k
      · subst he
        rw [show mapFind ((fi, o) :: s.obj_map) fi = some o by
          simp [mapFind]] at hk
        cases hk
        simp
      · rw [show mapFind ((fi, o) :: s.obj_map) k = mapFind s.obj_map k by
          simp [mapFind, he]] at hk
        exact List.mem_append_left _ (hmem k v hk)
    · exact get_append_index s.data_vec o hord hidx

/-- Fan-loop version of `check_index_keys`: with at least two remaining
vertices, the final key set is the starting one plus the remainder. -/
theorem fan_loop_keys (d : ObjData) (ctc cn : Bool) (i0 : Nat) :
    ∀ (l : List FaceIndex) (s : AIdxState) (acc idx : List Nat)
      (s' : AIdxState),
      fan_loop d ctc cn i0 l s acc = some (idx, s') → 2 ≤ l.length →
      (keysOf s').toFinset = (keysOf s).toFinset ∪ l.toFinset := by
  intro l
  induction l with
  | nil => intro s acc idx s' _ hlen; simp at hlen
  | cons a rest ih =>
    intro s acc idx s' h hlen
    cases rest with
    | nil => simp at hlen
    | cons b tail =>
      rw [fan_loop] at h
      obtain ⟨i1, s1, i2, s2, h1, h2, h3⟩ :=
        fan_loopM_cons_some assocModel d ctc cn i0 h
      have k1 := check_index_keys h1
      have k2 := check_index_keys h2
      cases tail with
      | nil =>
        rw [fan_loopM_single] at h3
        have hs : s2 = s' := congrArg Prod.snd (Option.some.inj h3)
        subst hs
        rw [k2, k1]
        ext x
        simp
        tauto
      | cons c tail2 =>
        have k3 := ih s2 _ idx s' (by rw [fan_loop]; exact h3) (by simp)
        rw [k3, k2, k1]
        ext x
        simp
        tauto

/-- Fan-loop preservation of well-formedness. -/
theorem fan_loop_WF (d : ObjData) (ctc cn : Bool) (i0 : Nat) :
    ∀ (l : List FaceIndex) (s : AIdxState) (acc idx : List Nat)
      (s' : AIdxState),
      fan_loop d ctc cn i0 l s acc = some (idx, s') → StWF s → StWF s' := by
  intro l
  induction l with
  | nil => intro s acc idx s' h hwf; rw [fan_loop, fan_loopM_nil] at h
           cases h; exact hwf
  | cons a rest ih =>
    intro s acc idx s' h hwf
    cases rest with
    | nil => rw [fan_loop, fan_loopM_single] at h; cases h; exact hwf
    | cons b tail =>
      rw [fan_loop] at h
      obtain ⟨i1, s1, i2, s2, h1, h2, h3⟩ :=
        fan_loopM_cons_some assocModel d ctc cn i0 h
      exact ih s2 _ idx s' (by rw [fan_loop]; exact h3)
        (check_index_WF h2 (check_index_WF h1 hwf))

/-- Face-loop version of `check_index_keys`: with every face at least a
triangle, the final key set is the starting one plus every face triple. -/
theorem index_faces_keys (d : ObjData) (ctc cn : Bool) :
    ∀ (faces : List (List FaceIndex)) (s : AIdxState) (acc idx : List Nat)
      (s' : AIdxState),
      index_faces d ctc cn faces s acc = some (idx, s') →
      (∀ f ∈ faces, 3 ≤ f.length) →
      (keysOf s').toFinset = (keysOf s).toFinset ∪ (faces.flatten).toFinset := by
  intro faces
  induction faces with
  | nil => intro s acc idx s' h _
           rw [index_faces, index_facesM_nil] at h; cases h; simp
  | cons face rest ih =>
    intro s acc idx s' h hfl
    rw [index_faces] at h
    obtain ⟨f0, i00, s0, mid, midS, hh, h0, h1, h2⟩ :=
      index_facesM_cons_some assocModel d ctc cn h
    have hface3 : 3 ≤ face.length := hfl face (by simp)
    cases face with
    | nil => simp at hh
    | cons v0 tail =>
      have hf0 : f0 = v0 := by simpa using hh.symm
      rw [hf0] at h0
      have k0 := check_index_keys h0
      have htl : 2 ≤ tail.length := by simpa using hface3
      have k1 := fan_loop_keys d ctc cn i00 tail s0 acc mid midS
        (by rw [fan_loop]; exact h1) htl
      have k2 := ih midS mid idx s' (by rw [index_faces]; exact h2)
        (fun f hf => hfl f (by simp [hf]))
      rw [k2, k1, k0]
      ext x
      simp
      try tauto

/-- Face-loop preservation of well-formedness. -/
theorem index_faces_WF (d : ObjData) (ctc cn : Bool) :
    ∀ (faces : List (List FaceIndex)) (s : AIdxState) (acc idx : List Nat)
      (s' : AIdxState),
      index_faces d ctc cn faces s acc = some (idx, s') → StWF s → StWF s' := by
  intro faces
  induction faces with
  | nil => intro s acc idx s' h hwf
           rw [index_faces, index_facesM_nil] at h; cases h; exact hwf
  | cons face rest ih =>
    intro s acc idx s' h hwf
    rw [index_faces] at h
    obtain ⟨f0, i00, s0, mid, midS, hh, h0, h1, h2⟩ :=
      index_facesM_cons_some assocModel d ctc cn h
    exact ih midS mid idx s' (by rw [index_faces]; exact h2)
      (fan_loop_WF d ctc cn i00 _ s0 acc mid midS
        (by rw [fan_loop]; exact h1) (check_index_WF h0 hwf))

/-! ### Independence from the map implementation -/

section RelLemmas

variable {σ1 σ2 : Type} (M1 : MapModel σ1) (M2 : MapModel σ2) (d : ObjData)
variable (ctc cn : Bool)

/-- The closure `check_index` behaves identically over any two map implementations
whose states correspond: it panics together or returns the same index
with corresponding states. -/
theorem check_indexM_rel {s1 : IdxState σ1} {s2 : IdxState σ2}
    (hrel : StRel M1 M2 s1 s2) (fi : FaceIndex) :
    (check_indexM M1 d ctc cn s1 fi = none ∧
      check_indexM M2 d ctc cn s2 fi = none) ∨
    (∃ i t1 t2, check_indexM M1 d ctc cn s1 fi = some (i, t1) ∧
      check_indexM M2 d ctc cn s2 fi = some (i, t2) ∧ StRel M1 M2 t1 t2) := by
  obtain ⟨hdv, hfind⟩ := hrel
  unfold check_indexM
  rw [hfind fi]
  cases hf : M2.find s2.obj_map fi with
  | some o =>
    exact Or.inr ⟨o.index % 2 ^ 32, s1, s2, rfl, rfl, hdv, hfind⟩
  | none =>
    cases hp : vecGet d.vert_positions fi.pos with
    | none => exact Or.inl ⟨by simp [hp], by simp [hp]⟩
    | some p =>
      cases ht : tex_fetch d ctc fi with
      | none => exact Or.inl ⟨by simp [hp, ht], by simp [hp, ht]⟩
      | some t =>
        cases hn : norm_fetch d cn fi with
        | none => exact Or.inl ⟨by simp [hp, ht, hn], by simp [hp, ht, hn]⟩
        | some n =>
          refine Or.inr ⟨s1.data_vec.length % 2 ^ 32,
            ⟨M1.insert s1.obj_map fi ⟨s1.data_vec.length, p, t, n⟩,
              s1.data_vec ++ [⟨s1.data_vec.length, p, t, n⟩]⟩,
            ⟨M2.insert s2.obj_map fi ⟨s2.data_vec.length, p, t, n⟩,
              s2.data_vec ++ [⟨s2.data_vec.length, p, t, n⟩]⟩,
            by simp [hp, ht, hn, hdv], by simp [hp, ht, hn, hdv], ?_, ?_⟩
          · simp [hdv]
          · intro k
            by_cases he : k = fi
            · subst he
              rw [M1.find_insert_self, M2.find_insert_self, hdv]
            · rw [M1.find_insert_ne _ _ _ _ he, M2.find_insert_ne _ _ _ _ he]
              exact hfind k

/-- Fan-loop version of `check_indexM_rel`. -/
theorem fan_loopM_rel (i0 : Nat) :
    ∀ (l : List FaceIndex) (s1 : IdxState σ1) (s2 : IdxState σ2)
      (acc : List Nat), StRel M1 M2 s1 s2 →
      (fan_loopM M1 d ctc cn i0 l s1 acc = none ∧
        fan_loopM M2 d ctc cn i0 l s2 acc = none) ∨
      (∃ idx t1 t2, fan_loopM M1 d ctc cn i0 l s1 acc = some (idx, t1) ∧
        fan_loopM M2 d ctc cn i0 l s2 acc = some (idx, t2) ∧
        StRel M1 M2 t1 t2) := by
  intro l
  induction l with
  | nil =>
    intro s1 s2 acc hrel
    exact Or.inr ⟨acc, s1, s2, fan_loopM_nil .., fan_loopM_nil .., hrel⟩
  | cons a rest ih =>
    intro s1 s2 acc hrel
    cases rest with
    | nil =>
      exact Or.inr ⟨acc, s1, s2, fan_loopM_single .., fan_loopM_single .., hrel⟩
    | cons b tail =>
      rcases check_indexM_rel M1 M2 d ctc cn hrel a with
        ⟨e1, e2⟩ | ⟨i1, t1, t2, e1, e2, hrel1⟩
      · refine Or.inl ⟨?_, ?_⟩ <;> simp [fan_loopM, e1, e2]
      · rcases check_indexM_rel M1 M2 d ctc cn hrel1 b with
          ⟨f1, f2⟩ | ⟨i2, u1, u2, f1, f2, hrel2⟩
        · refine Or.inl ⟨?_, ?_⟩ <;> simp [fan_loopM, e1, e2, f1, f2]
        · rcases ih u1 u2 (acc ++ [i0, i1, i2]) hrel2 with
            ⟨g1, g2⟩ | ⟨idx, w1, w2, g1, g2, hrel3⟩
          · refine Or.inl ⟨?_, ?_⟩ <;>
              simp [fan_loopM, e1, e2, f1, f2, g1, g2]
          · refine Or.inr ⟨idx, w1, w2, ?_, ?_, hrel3⟩ <;>
              simp [fan_loopM, e1, e2, f1, f2, g1, g2]

/-- Face-loop version of `check_indexM_rel`. -/
theorem index_facesM_rel :
    ∀ (faces : List (List FaceIndex)) (s1 : IdxState σ1) (s2 : IdxState σ2)
      (acc : List Nat), StRel M1 M2 s1 s2 →
      (index_facesM M1 d ctc cn faces s1 acc = none ∧
        index_facesM M2 d ctc cn faces s2 acc = none) ∨
      (∃ idx t1 t2, index_facesM M1 d ctc cn faces s1 acc = some (idx, t1) ∧
        index_facesM M2 d ctc cn faces s2 acc = some (idx, t2) ∧
        StRel M1 M2 t1 t2) := by
  intro faces
  induction faces with
  | nil =>
    intro s1 s2 acc hrel
    exact Or.inr ⟨acc, s1, s2, index_facesM_nil .., index_facesM_nil .., hrel⟩
  | cons face rest ih =>
    intro s1 s2 acc hrel
    cases hh : face.head? with
    | none =>
      refine Or.inl ⟨?_, ?_⟩ <;> simp [index_facesM, hh]
    | some f0 =>
      rcases check_indexM_rel M1 M2 d ctc cn hrel f0 with
        ⟨e1, e2⟩ | ⟨i0, t1, t2, e1, e2, hrel1⟩
      · refine Or.inl ⟨?_, ?_⟩ <;> simp [index_facesM, hh, e1, e2]
      · rcases fan_loopM_rel M1 M2 d ctc cn i0 face.tail t1 t2 acc hrel1 with
          ⟨f1, f2⟩ | ⟨mid, u1, u2, f1, f2, hrel2⟩
        · refine Or.inl ⟨?_, ?_⟩ <;>
            simp [index_facesM, hh, e1, e2, f1, f2]
        · rcases ih u1 u2 mid hrel2 with
            ⟨g1, g2⟩ | ⟨idx, w1, w2, g1, g2, hrel3⟩
          · refine Or.inl ⟨?_, ?_⟩ <;>
              simp [index_facesM, hh, e1, e2, f1, f2, g1, g2]
          · refine Or.inr ⟨idx, w1, w2, ?_, ?_, hrel3⟩ <;>
              simp [index_facesM, hh, e1, e2, f1, f2, g1, g2]

/-- The whole indexer is independent of the map implementation. -/
theorem index_dataM_rel :
    index_dataM M1 d ctc cn = index_dataM M2 d ctc cn := by
  have hrel : StRel M1 M2 ⟨M1.empty, []⟩ ⟨M2.empty, []⟩ :=
    ⟨rfl, fun k => by rw [M1.find_empty, M2.find_empty]⟩
  rcases index_facesM_rel M1 M2 d ctc cn d.faces ⟨M1.empty, []⟩ ⟨M2.empty, []⟩
      [] hrel with ⟨e1, e2⟩ | ⟨idx, t1, t2, e1, e2, ⟨hdv, _⟩⟩
  · unfold index_dataM
    rw [e1, e2]
    rfl
  · unfold index_dataM
    rw [e1, e2]
    simp [hdv]

end RelLemmas

/-! ### Facts about one whole `index_data` run -/

/-- Collected invariants of a successful `index_data` run: the emitted
buffer is the flat emission of the final `data_vec`, its length is
`count * stride`, every emitted index is below the record count, the
index list length is a multiple of three, and the final state is
well-formed. -/
theorem index_data_run_facts {d : ObjData} {ctc cn : Bool} {idx : List Nat}
    {vb : List ℚ} (h : index_data d ctc cn = some (idx, vb)) :
    ∃ s', index_faces d ctc cn d.faces ⟨[], []⟩ [] = some (idx, s') ∧
      vb = (s'.data_vec.map (emit_vertex ctc cn)).flatten ∧
      vb.length = s'.data_vec.length * stride ctc cn ∧
      (∀ x ∈ idx, x < s'.data_vec.length) ∧
      idx.length % 3 = 0 ∧ StWF s' := by
  rw [index_data] at h
  obtain ⟨s', hrun, hvb⟩ := index_dataM_some assocModel d ctc cn h
  have hrun' : index_faces d ctc cn d.faces ⟨[], []⟩ [] = some (idx, s') := by
    rw [index_faces]; exact hrun
  have hinv0 : IdxInv assocModel (⟨[], []⟩ : AIdxState) := by
    intro k o hk
    exact absurd hk (by simp [show assocModel.find [] k = mapFind [] k from rfl,
      mapFind])
  have hwf0 : StWF (⟨[], []⟩ : AIdxState) := by
    refine ⟨by simp [keysOf], rfl, ?_, ?_⟩
    · intro k o hk; exact absurd hk (by simp [mapFind])
    · intro j hj; simp at hj
  obtain ⟨_, hbound, _⟩ := index_facesM_inv assocModel d ctc cn d.faces
    ⟨[], []⟩ [] idx s' hrun hinv0 (by simp)
  refine ⟨s', hrun', hvb, ?_, hbound, ?_, ?_⟩
  · rw [hvb]; exact emit_all_length ctc cn s'.data_vec
  · simpa using index_facesM_acc_mod3 assocModel d ctc cn d.faces
      ⟨[], []⟩ [] idx s' hrun
  · exact index_faces_WF d ctc cn d.faces ⟨[], []⟩ [] idx s' hrun' hwf0

/-! ### With `contains_tex_coords = false` the texture array is never read -/

section TexIrrel

variable {σ : Type} (M : MapModel σ) (d : ObjData) (A : List Vec2) (cn : Bool)

/-- The closure `check_index` under `ctc = false` never touches the texture array. -/
theorem check_indexM_tex_irrel (s : IdxState σ) (fi : FaceIndex) :
    check_indexM M { d with tex_coords := A } false cn s fi =
      check_indexM M d false cn s fi := rfl

/-- Fan-loop version of `check_indexM_tex_irrel`. -/
theorem fan_loopM_tex_irrel (i0 : Nat) :
    ∀ (l : List FaceIndex) (s : IdxState σ) (acc : List Nat),
      fan_loopM M { d with tex_coords := A } false cn i0 l s acc =
        fan_loopM M d false cn i0 l s acc := by
  intro l
  induction l with
  | nil => intro s acc; rfl
  | cons a rest ih =>
    intro s acc
    cases rest with
    | nil => rfl
    | cons b tail =>
      show (check_indexM M { d with tex_coords := A } false cn s a).bind _ =
        (check_indexM M d false cn s a).bind _
      rw [check_indexM_tex_irrel]
      refine congrArg _ (funext fun r1 => ?_)
      show (check_indexM M { d with tex_coords := A } false cn r1.2 b).bind _ =
        (check_indexM M d false cn r1.2 b).bind _
      rw [check_indexM_tex_irrel]
      exact congrArg _ (funext fun r2 => ih r2.2 (acc ++ [i0, r1.1, r2.1]))

/-- Face-loop version of `check_indexM_tex_irrel`. -/
theorem index_facesM_tex_irrel :
    ∀ (faces : List (List FaceIndex)) (s : IdxState σ) (acc : List Nat),
      index_facesM M { d with tex_coords := A } false cn faces s acc =
        index_facesM M d false cn faces s acc := by
  intro faces
  induction faces with
  | nil => intro s acc; rfl
  | cons face rest ih =>
    intro s acc
    show (face.head?).bind _ = (face.head?).bind _
    refine congrArg _ (funext fun f0 => ?_)
    show (check_indexM M { d with tex_coords := A } false cn s f0).bind _ =
      (check_indexM M d false cn s f0).bind _
    rw [check_indexM_tex_irrel]
    refine congrArg _ (funext fun r0 => ?_)
    show (fan_loopM M { d with tex_coords := A } false cn r0.1
        face.tail r0.2 acc).bind _ =
      (fan_loopM M d false cn r0.1 face.tail r0.2 acc).bind _
    rw [fan_loopM_tex_irrel]
    exact congrArg _ (funext fun out => ih out.2 out.1)

end TexIrrel

/-! ### The claims -/

/-- C1: for every OBJ input that produces output buffers, every index
stored in the output index buffer is strictly less than the number of
output vertices, i.e. strictly less than the vertex buffer length divided
by the per-vertex stride. -/
theorem C1_index_in_bounds (lines : List (List Char)) (out : ObjLoader)
    (h : from_file lines = some out) :
    ∀ i ∈ out.indices, i < out.vert_data.length /
      stride out.contains_tex_coords out.contains_normals := by
  obtain ⟨d, idx, vb, _, _, _, hr, hidx, hvb⟩ := from_file_some h
  rw [hidx, hvb]
  obtain ⟨s', _, _, hlen, hbound, _, _⟩ := index_data_run_facts hr
  intro i hi
  rw [hlen, Nat.mul_div_cancel _ (stride_pos _ _)]
  exact hbound i hi

/-- Witness for C1 at the concrete triangle input
`v 0 0 0 / v 1 0 0 / v 1 1 0 / f 1 2 3`: its largest emitted index, 2,
is below the vertex count. -/
theorem C1_index_in_bounds_witness :
    (2 : Nat) <
      ([0, 0, 0, 1, 0, 0, 1, 1, 0] : List ℚ).length / stride false false :=
  C1_index_in_bounds triangle_lines
    ⟨[0, 1, 2], [0, 0, 0, 1, 0, 0, 1, 1, 0], false, false⟩
    (by with_unfolding_all rfl) 2 (by decide)

/-- C2: the number of distinct `(pos,tex,norm)` triples across all faces
equals the number of vertex records in the output vertex buffer (the
buffer length divided by the stride), and a face referencing an
already-seen triple does not grow the vertex buffer: `check_index`
answers it from the dedup map, returning the previously assigned output
index and leaving the state untouched. -/
theorem C2_dedup_count (d : ObjData) (ctc cn : Bool) (idx : List Nat)
    (vb : List ℚ) (h : index_data d ctc cn = some (idx, vb))
    (hfaces : ∀ f ∈ d.faces, 3 ≤ f.length) :
    (d.faces.flatten).toFinset.card = vb.length / stride ctc cn ∧
    ∀ (s : AIdxState) (fi : FaceIndex) (o : ObjObject),
      mapFind s.obj_map fi = some o →
      check_index d ctc cn s fi = some (o.index % 2 ^ 32, s) := by
  constructor
  · obtain ⟨s', hrun, _, hlen, _, _, hnd, hmlen, _, _⟩ :=
      index_data_run_facts h
    have hkeys := index_faces_keys d ctc cn d.faces ⟨[], []⟩ [] idx s'
      hrun hfaces
    have hinit : (keysOf (⟨[], []⟩ : AIdxState)).toFinset = ∅ := by
      simp [keysOf]
    rw [hinit] at hkeys
    have hcard : (d.faces.flatten).toFinset.card = s'.data_vec.length := by
      rw [← Finset.empty_union (d.faces.flatten).toFinset, ← hkeys,
        List.toFinset_card_of_nodup hnd]
      simpa [keysOf] using hmlen
    rw [hcard, hlen, Nat.mul_div_cancel _ (stride_pos _ _)]
  · intro s fi o hfound
    exact check_indexM_found assocModel d ctc cn hfound

/-- Witness for C2: two triangles sharing an edge (four distinct triples
across six face entries) produce exactly four vertex records, and the
already-seen triple `(0,0,0)` is answered from a one-entry map without
touching the state. -/
theorem C2_dedup_count_witness :
    (([[(⟨0, 0, 0⟩ : FaceIndex), ⟨1, 0, 0⟩, ⟨2, 0, 0⟩],
        [⟨0, 0, 0⟩, ⟨2, 0, 0⟩, ⟨3, 0, 0⟩]] : List (List FaceIndex)).flatten
      ).toFinset.card =
      ([0, 0, 0, 1, 0, 0, 1, 1, 0, 0, 1, 0] : List ℚ).length /
        stride false false ∧
    check_index
        (⟨[⟨0, 0, 0⟩, ⟨1, 0, 0⟩, ⟨1, 1, 0⟩, ⟨0, 1, 0⟩], [], [],
          [[⟨0, 0, 0⟩, ⟨1, 0, 0⟩, ⟨2, 0, 0⟩],
           [⟨0, 0, 0⟩, ⟨2, 0, 0⟩, ⟨3, 0, 0⟩]]⟩ : ObjData) false false
        ⟨[(⟨0, 0, 0⟩, ⟨0, ⟨0, 0, 0⟩, ⟨0, 0⟩, ⟨0, 0, 0⟩⟩)],
          [⟨0, ⟨0, 0, 0⟩, ⟨0, 0⟩, ⟨0, 0, 0⟩⟩]⟩ ⟨0, 0, 0⟩ =
      some (0 % 2 ^ 32,
        ⟨[(⟨0, 0, 0⟩, ⟨0, ⟨0, 0, 0⟩, ⟨0, 0⟩, ⟨0, 0, 0⟩⟩)],
          [⟨0, ⟨0, 0, 0⟩, ⟨0, 0⟩, ⟨0, 0, 0⟩⟩]⟩) := by
  have H := C2_dedup_count
    ⟨[⟨0, 0, 0⟩, ⟨1, 0, 0⟩, ⟨1, 1, 0⟩, ⟨0, 1, 0⟩], [], [],
      [[⟨0, 0, 0⟩, ⟨1, 0, 0⟩, ⟨2, 0, 0⟩], [⟨0, 0, 0⟩, ⟨2, 0, 0⟩, ⟨3, 0, 0⟩]]⟩
    false false [0, 1, 2, 0, 2, 3]
    [0, 0, 0, 1, 0, 0, 1, 1, 0, 0, 1, 0]
    (by with_unfolding_all rfl) (by decide)
  exact ⟨H.1, H.2
    ⟨[(⟨0, 0, 0⟩, ⟨0, ⟨0, 0, 0⟩, ⟨0, 0⟩, ⟨0, 0, 0⟩⟩)],
      [⟨0, ⟨0, 0, 0⟩, ⟨0, 0⟩, ⟨0, 0, 0⟩⟩]⟩ ⟨0, 0, 0⟩
    ⟨0, ⟨0, 0, 0⟩, ⟨0, 0⟩, ⟨0, 0, 0⟩⟩ (by decide)⟩

/-- C10: for every `ObjData` whose faces all have at least three vertex
triples, a successful run emits an index buffer whose length is a
multiple of 3 and a vertex buffer whose length is an exact multiple of
the per-vertex stride. -/
theorem C10_buffer_multiples (d : ObjData) (ctc cn : Bool) (idx : List Nat)
    (vb : List ℚ) (h : index_data d ctc cn = some (idx, vb))
    (_hfaces : ∀ f ∈ d.faces, 3 ≤ f.length) :
    idx.length % 3 = 0 ∧ vb.length % stride ctc cn = 0 := by
  obtain ⟨s', _, _, hlen, _, hmod3, _⟩ := index_data_run_facts h
  exact ⟨hmod3, by rw [hlen]; exact Nat.mul_mod_left _ _⟩

/-- Witness for C10 at the quad input (one face, four triples, all faces
of length at least 3). -/
theorem C10_buffer_multiples_witness :
    ([0, 1, 2, 0, 2, 3] : List Nat).length % 3 = 0 ∧
    ([0, 0, 0, 1, 0, 0, 1, 1, 0, 0, 1, 0] : List ℚ).length %
      stride false false = 0 :=
  C10_buffer_multiples quadFaceData
    false false [0, 1, 2, 0, 2, 3] [0, 0, 0, 1, 0, 0, 1, 1, 0, 0, 1, 0]
    (by with_unfolding_all rfl) (by decide)

/-- C3: processing one face of `N ≥ 3` vertex triples appends exactly
`3·(N−2)` index entries in fan order from vertex 0 — triangle `j`
(`j = 0 … N−3`, i.e. `i = j+1` of the claim) is
`(resolve v0, resolve v_{j+1}, resolve v_{j+2})`, each entry being the
final stored index of its triple — and in particular the quad scenario
`f 1 2 3 4` over four distinct positions yields the index buffer
`[0,1,2, 0,2,3]`. -/
theorem C3_fan_triangulation :
    (∀ (d : ObjData) (ctc cn : Bool) (v0 : FaceIndex) (tail : List FaceIndex)
      (s : AIdxState) (acc idx : List Nat) (s' : AIdxState),
      index_faces d ctc cn [v0 :: tail] s acc = some (idx, s') →
      2 ≤ tail.length →
      idx.length = acc.length + 3 * ((v0 :: tail).length - 2) ∧
      idx = acc ++ ((List.range ((v0 :: tail).length - 2)).map
        (fun j => [finalIdx s' v0, finalIdx s' (tail.getD j v0),
          finalIdx s' (tail.getD (j + 1) v0)])).flatten ∧
      (∀ fi ∈ v0 :: tail, ∃ o, mapFind s'.obj_map fi = some o)) ∧
    from_file quad_lines =
      some ⟨[0, 1, 2, 0, 2, 3], [0, 0, 0, 1, 0, 0, 1, 1, 0, 0, 1, 0],
        false, false⟩ := by
  constructor
  · intro d ctc cn v0 tail s acc idx s' h htl
    obtain ⟨hsh, hv0, hcov⟩ := face_shape d ctc cn v0 tail s acc idx s' h
    have hn2 : (v0 :: tail).length - 2 = tail.length - 1 := by
      simp
    refine ⟨?_, ?_, ?_⟩
    · rw [hsh, List.length_append, fanPairs_length, hn2]
    · rw [hsh, fanPairs_range (finalIdx s' v0) (finalIdx s') tail v0, hn2]
    · intro fi hfi
      rcases List.mem_cons.mp hfi with rfl | hfi2
      · exact hv0
      · exact hcov htl fi hfi2
  · with_unfolding_all rfl

/-- Witness for C3 at the quad face, processed from the empty state. -/
theorem C3_fan_triangulation_witness :
    ([0, 1, 2, 0, 2, 3] : List Nat).length = ([] : List Nat).length +
      3 * (((⟨0, 0, 0⟩ : FaceIndex) ::
        [⟨1, 0, 0⟩, ⟨2, 0, 0⟩, ⟨3, 0, 0⟩]).length - 2) ∧
    ([0, 1, 2, 0, 2, 3] : List Nat) = [] ++
      ((List.range (((⟨0, 0, 0⟩ : FaceIndex) ::
        [⟨1, 0, 0⟩, ⟨2, 0, 0⟩, ⟨3, 0, 0⟩]).length - 2)).map
        (fun j => [finalIdx quadFaceFinal ⟨0, 0, 0⟩,
          finalIdx quadFaceFinal
            (([⟨1, 0, 0⟩, ⟨2, 0, 0⟩, ⟨3, 0, 0⟩] :
              List FaceIndex).getD j ⟨0, 0, 0⟩),
          finalIdx quadFaceFinal
            (([⟨1, 0, 0⟩, ⟨2, 0, 0⟩, ⟨3, 0, 0⟩] :
              List FaceIndex).getD (j + 1) ⟨0, 0, 0⟩)])).flatten ∧
    (∃ o, mapFind quadFaceFinal.obj_map ⟨2, 0, 0⟩ = some o) := by
  have H := C3_fan_triangulation.1 quadFaceData false false ⟨0, 0, 0⟩
    [⟨1, 0, 0⟩, ⟨2, 0, 0⟩, ⟨3, 0, 0⟩] ⟨[], []⟩ [] [0, 1, 2, 0, 2, 3]
    quadFaceFinal (by with_unfolding_all rfl) (by decide)
  exact ⟨H.1, H.2.1, H.2.2 ⟨2, 0, 0⟩ (by decide)⟩

/-- C7: the end-to-end triangle scenario yields vertex buffer
`[0,0,0, 1,0,0, 1,1,0]` and index buffer `[0,1,2]`, and in general the
vertex buffer is the in-`outputIndex`-order flat emission of the unique
vertex records — record `j` carries `outputIndex` `j` and occupies
exactly `stride = 3 + (hasTexCoords?2:0) + (hasNormals?3:0)` values
(position, then texture under the flag, then normal under the flag, as
`emit_vertex` lays them out). -/
theorem C7_layout_and_example :
    from_file triangle_lines =
      some ⟨[0, 1, 2], [0, 0, 0, 1, 0, 0, 1, 1, 0], false, false⟩ ∧
    ∀ (d : ObjData) (ctc cn : Bool) (idx : List Nat) (vb : List ℚ),
      index_data d ctc cn = some (idx, vb) →
      ∃ s', index_faces d ctc cn d.faces ⟨[], []⟩ [] = some (idx, s') ∧
        vb = (s'.data_vec.map (emit_vertex ctc cn)).flatten ∧
        vb.length = s'.data_vec.length * stride ctc cn ∧
        ∀ j (hj : j < s'.data_vec.length),
          (s'.data_vec.get ⟨j, hj⟩).index = j := by
  constructor
  · with_unfolding_all rfl
  · intro d ctc cn idx vb h
    obtain ⟨s', hrun, hvb, hlen, _, _, hwf⟩ := index_data_run_facts h
    exact ⟨s', hrun, hvb, hlen, hwf.2.2.2⟩

/-- Witness for C7 at the parsed triangle data. -/
theorem C7_layout_and_example_witness :
    ∃ s', index_faces triangleData false false triangleData.faces
        ⟨[], []⟩ [] = some ([0, 1, 2], s') ∧
      ([0, 0, 0, 1, 0, 0, 1, 1, 0] : List ℚ) =
        (s'.data_vec.map (emit_vertex false false)).flatten ∧
      ([0, 0, 0, 1, 0, 0, 1, 1, 0] : List ℚ).length =
        s'.data_vec.length * stride false false ∧
      ∀ j (hj : j < s'.data_vec.length),
        (s'.data_vec.get ⟨j, hj⟩).index = j :=
  C7_layout_and_example.2 triangleData false false [0, 1, 2]
    [0, 0, 0, 1, 0, 0, 1, 1, 0] (by with_unfolding_all rfl)

/-- C8: the indexer is a deterministic function of `RawMeshData` and the
two flags — running it over any two (lawful) hash-map implementations,
whatever their hash seeds or iteration orders, produces identical index
and vertex buffers, and each such run equals the reference run.  Since
the source never iterates its `HashMap` (output order comes from
`data_vec`), this is exactly its run-to-run determinism. -/
theorem C8_determinism :
    ∀ (σ1 σ2 : Type) (M1 : MapModel σ1) (M2 : MapModel σ2) (d : ObjData)
      (ctc cn : Bool),
      index_dataM M1 d ctc cn = index_dataM M2 d ctc cn ∧
      index_dataM M1 d ctc cn = index_data d ctc cn :=
  fun _ _ M1 M2 d ctc cn =>
    ⟨index_dataM_rel M1 M2 d ctc cn, index_dataM_rel M1 assocModel d ctc cn⟩

/-- C9: a face token omitting the texture or normal slot keeps the
`FaceIndex::new(0,0,0)` default in that slot, so `2//3` parses to the
same triple as `2/1/3` (and a bare `2` to the same triple as `2/1/1`);
such tokens deduplicate into one output vertex, and with a non-empty
texture array the omitted slot resolves to element 0 of the array: in
the end-to-end run below the shared vertex (output index 0, used twice in
the index buffer) carries `vt` element 0, `(0.25, 0.75)`. -/
theorem C9_omitted_slot_is_index_zero :
    parse_face_index ("2//3").data = some ⟨1, 0, 2⟩ ∧
    parse_face_index ("2/1/3").data = some ⟨1, 0, 2⟩ ∧
    parse_face_index ("2").data = some ⟨1, 0, 0⟩ ∧
    parse_face_index ("2/1/1").data = some ⟨1, 0, 0⟩ ∧
    from_file omitted_slot_lines =
      some ⟨[0, 0, 1],
        [1, 0, 0, 1/4, 3/4, 0, 0, 1,
         0, 0, 0, 1/4, 3/4, 1, 0, 0], true, true⟩ := by
  refine ⟨?_, ?_, ?_, ?_, ?_⟩ <;> with_unfolding_all rfl

/-- C4 (code bug): the source's own signature
(`obj_get_data` returns `Result<ObjData, Box<dyn Error>>`) and the spec
promise typed errors, but every failure path is an `unwrap`: a malformed
float, a too-short `v` line, a malformed face token, an out-of-range
index and an unreadable file all panic.  In the embedding (`none` is the
panic) each such input yields `none`; no typed error value exists
anywhere in the success type. -/
theorem C4_failures_panic :
    obj_get_data [("v a 0 0").data] = none ∧
    obj_get_data [("v 1 2").data] = none ∧
    obj_get_data [("f x 1 2").data] = none ∧
    from_file [("v 0 0 0").data, ("f 5 1 1").data] = none ∧
    from_file [("v a 0 0").data] = none := by
  refine ⟨?_, ?_, ?_, ?_, ?_⟩ <;> with_unfolding_all rfl

/-- C5 (code bug): a face token whose raw OBJ index is zero or negative
becomes negative after the 1-based decrement; the source then reinterprets
it `as usize` (a huge value) and panics on the out-of-bounds fetch instead
of failing with a typed `IndexOutOfRange` — and when the slot's flag is
off (texture index with no `vt` lines) the negative index is silently
accepted with no failure at all. -/
theorem C5_nonpositive_index_not_typed_error :
    from_file [("v 0 0 0").data, ("f 0 1 1").data] = none ∧
    from_file [("v 0 0 0").data, ("f -2 1 1").data] = none ∧
    from_file [("v 0 0 0").data, ("f 1/0/1 1/0/1 1/0/1").data] =
      some ⟨[0, 0, 0], [0, 0, 0], false, false⟩ := by
  refine ⟨?_, ?_, ?_⟩ <;> with_unfolding_all rfl

/-- C6 counterexample: the claim requires the mixed-presence input (face
tokens carry a texture index, no `vt` line) to fail with a typed error;
the conversion instead succeeds, emitting position-only records. -/
theorem C6_counterexample :
    from_file mixed_lines =
      some ⟨[0, 1, 2], [0, 0, 0, 1, 0, 0, 1, 1, 0], false, false⟩ := by
  with_unfolding_all rfl

/-- C6 (amended): with an empty texture array `hasTexCoords` is `false`,
so the conversion neither fails nor emits any texture coordinate: the
texture array's contents are entirely irrelevant to the output (the face
texture indices are never dereferenced), and the loader reports
`contains_tex_coords = false`. -/
theorem C6_mixed_presence_amended :
    (∀ (lines : List (List Char)) (d : ObjData) (out : ObjLoader),
      obj_get_data lines = some d → d.tex_coords = [] →
      from_file lines = some out → out.contains_tex_coords = false) ∧
    ∀ (d : ObjData) (cn : Bool) (A : List Vec2),
      index_data { d with tex_coords := A } false cn =
        index_data d false cn := by
  constructor
  · intro lines d out hd htex h
    obtain ⟨d2, idx, vb, hd2, hctc, _, _, _, _⟩ := from_file_some h
    have hdd : d2 = d := Option.some.inj (hd2.symm.trans hd)
    rw [hctc, hdd, htex]
    rfl
  · intro d cn A
    show index_dataM assocModel { d with tex_coords := A } false cn =
      index_dataM assocModel d false cn
    unfold index_dataM
    rw [show ({ d with tex_coords := A } : ObjData).faces = d.faces from rfl,
      index_facesM_tex_irrel]

/-- Witness for C6 (amended) at the mixed-presence input. -/
theorem C6_mixed_presence_amended_witness :
    (⟨[0, 1, 2], [0, 0, 0, 1, 0, 0, 1, 1, 0], false, false⟩ :
      ObjLoader).contains_tex_coords = false :=
  C6_mixed_presence_amended.1 mixed_lines mixedData
    ⟨[0, 1, 2], [0, 0, 0, 1, 0, 0, 1, 1, 0], false, false⟩
    (by with_unfolding_all rfl) rfl (by with_unfolding_all rfl)

end ObjImport
